import Mathlib

/-! Offline cache worker and the rendered-html element.

A shallow embedding of `service-worker.js` (install / activate / fetch listeners)
and of the `RenderedHtml` custom element of `app.js`.

The browser capabilities the listeners call (`caches`, `fetch`, `clients.claim`) are
not code of the repository.  They are modelled as an in-memory key-value capability:
a cache storage is the list of named stores in creation order, a store is a list of
entries keyed by request URL, and the network is a function from requests to either
a failure or a response.  The writes follow the platform's rules: `cache.put` refuses
a 206 response and a response with `Vary: *`, and `cache.addAll` also refuses a status
outside 200 to 299 and writes nothing unless every response is accepted.
-/

namespace Words

/-! ## Constants of service-worker.js (lines 1-12) -/

/-- Line 1: the Shell Store name. -/
def cacheName : String := "Elm-Cards"

/-- Line 2: the Data Store name. -/
def dataCacheName : String := "Elm-Cards-Data-v1"

/-- Line 3: the API origin marker. -/
def dataUrl : String := "https://glosbe.com/gapi/translate"

/-- Lines 5-12: the manifest (the commented-out entries are not part of the list). -/
def filesToCache : List String :=
  [ "https://cdnjs.cloudflare.com/ajax/libs/bulma/0.7.1/css/bulma.min.css",
    "https://use.fontawesome.com/releases/v5.1.0/js/all.js" ]

/-! ## JavaScript strings -/

/-- Scan of `String.prototype.indexOf`: the smallest position `k + i` at which
`searchString` occurs in `s` (the part of the string from position `k` on), or `-1`. -/
def indexOfFrom (searchString : List Char) : List Char → Nat → Int
  | [], k => if searchString = [] then (k : Int) else -1
  | c :: cs, k =>
    if searchString.isPrefixOf (c :: cs) then (k : Int)
    else indexOfFrom searchString cs (k + 1)

/-- The method `s.indexOf(searchString)` of JavaScript strings. -/
def indexOf (s searchString : String) : Int :=
  indexOfFrom searchString.data s.data 0

/-- The spec's "contains the marker as a literal substring": some split
`url = before ++ marker ++ after`. -/
def containsSubstring (s marker : String) : Prop :=
  ∃ before after : List Char, s.data = before ++ marker.data ++ after

/-! ## The platform: promises, requests, responses, stores, network -/

/-- The reason of a rejected promise. -/
inductive Failure where
  /-- The rejection of `fetch` when the network request fails. -/
  | network (reason : String)
  /-- A `TypeError` thrown by a platform operation. -/
  | typeError (message : String)
  deriving DecidableEq, Repr

/-- The outcome of a promise once it has settled. -/
inductive Settled (α : Type) where
  | fulfilled (value : α)
  | rejected (reason : Failure)
  deriving DecidableEq, Repr

/-- A captured response: what a store keeps and what the network delivers.  The field
`vary` holds the field values of the response's `Vary` header (empty when there is
none). -/
structure Snapshot where
  status : Nat
  vary : List String
  body : String
  deriving DecidableEq, Repr

/-- A response object: a snapshot together with the flag telling whether its body
has already been read (a body can be read once). -/
structure Response where
  snapshot : Snapshot
  bodyUsed : Bool
  deriving DecidableEq, Repr

/-- A response object whose body has not been read yet. -/
def Response.fresh (s : Snapshot) : Response := ⟨s, false⟩

/-- The method `response.clone()`: a second, independently readable response with the
same content; it throws when the body has already been read and leaves the original
as it is. -/
def Response.clone (r : Response) : Settled Response :=
  if r.bodyUsed then .rejected (.typeError "Response body is already used")
  else .fulfilled ⟨r.snapshot, false⟩

/-- A request: its method and its serialised URL (`e.request.url`). -/
structure Request where
  method : String
  url : String
  deriving DecidableEq, Repr

/-- The request the platform builds from a URL string, as in `caches.match(url)` and
`cache.put(url, ...)`. -/
def Request.ofUrl (url : String) : Request := ⟨"GET", url⟩

/-- A store: its entries in insertion order, keyed by request URL. -/
abbrev Cache := List (String × Snapshot)

/-- The cache storage `caches`: the named stores in creation order. -/
abbrev CacheStorage := List (String × Cache)

/-- The network: what `fetch` settles to for a request. -/
abbrev Network := Request → Settled Snapshot

/-- The global `fetch(request)`. -/
def fetch (net : Network) (request : Request) : Settled Response :=
  match net request with
  | .fulfilled s => .fulfilled (Response.fresh s)
  | .rejected f => .rejected f

/-- The method `cache.match(request)` on one store: only `GET` requests match, and the
entry is the first one stored under the URL. -/
def cacheMatch (cache : Cache) (request : Request) : Option Response :=
  if request.method = "GET" then
    (cache.find? fun entry => entry.1 = request.url).map fun entry => Response.fresh entry.2
  else none

/-- The method `caches.match(request)`: the stores are searched in creation order and
the first match is the answer (`none` stands for `undefined`). -/
def cachesMatch : CacheStorage → Request → Option Response
  | [], _ => none
  | (_, cache) :: rest, request =>
    match cacheMatch cache request with
    | some response => some response
    | none => cachesMatch rest request

/-- The method `caches.keys()`: the store names in creation order. -/
def cachesKeys (caches : CacheStorage) : List String := caches.map fun store => store.1

/-- The method `caches.open(name)`: the store is created, empty, when it does not exist.
The handle it resolves to is the name. -/
def cachesOpen (caches : CacheStorage) (name : String) : CacheStorage :=
  if name ∈ cachesKeys caches then caches else caches ++ [(name, [])]

/-- The method `caches.delete(name)`. -/
def cachesDelete (caches : CacheStorage) (name : String) : CacheStorage :=
  caches.filter fun store => store.1 ≠ name

/-- The store behind a handle (the first store of that name). -/
def cachesLookup (caches : CacheStorage) (name : String) : Option Cache :=
  (caches.find? fun store => store.1 = name).map fun store => store.2

/-- Writing one entry: an entry stored under the same URL is replaced. -/
def entriesPut (cache : Cache) (url : String) (s : Snapshot) : Cache :=
  (cache.filter fun entry => entry.1 ≠ url) ++ [(url, s)]

/-- The storage after the store of the given name has been rewritten by `f`. -/
def cachesModify (f : Cache → Cache) (name : String) : CacheStorage → CacheStorage
  | [] => []
  | (n, cache) :: rest =>
    if n = name then (n, f cache) :: rest else (n, cache) :: cachesModify f name rest

/-- The method `cache.put(url, response)` on the store of the given name.  The platform
rejects a partial response (status 206) and a response whose `Vary` header has the
value `*`; it reads the body of `response` into the store, so it also rejects when the
body has been read before.  Otherwise the result is the storage and the response object
as `put` leaves it (body read).  The request made from the URL string is a `GET`
request, and the URL of an intercepted request is an http(s) URL, so the platform's
checks of method and scheme always pass here. -/
def cachePut (caches : CacheStorage) (name url : String) (response : Response) :
    Settled (CacheStorage × Response) :=
  if response.snapshot.status = 206 then
    .rejected (.typeError "Partial response (status code 206) is unsupported")
  else if "*" ∈ response.snapshot.vary then
    .rejected (.typeError "Vary header contains *")
  else if response.bodyUsed then .rejected (.typeError "Response body is already used")
  else .fulfilled
    (cachesModify (fun cache => entriesPut cache url response.snapshot) name caches,
     { response with bodyUsed := true })

/-- The responses `cache.addAll` accepts: an ok status (200 to 299) other than 206, and
no `Vary` header with the value `*`. -/
def addAllAccepts (s : Snapshot) : Bool :=
  decide (200 ≤ s.status) && decide (s.status ≤ 299) && !decide (s.status = 206) &&
    !decide ("*" ∈ s.vary)

/-- The fetches of `cache.addAll`: every URL is requested; the result is the list of
entries to store when every fetch is fulfilled with a response that `addAll` accepts,
and a rejection otherwise. -/
def fetchAll (net : Network) : List String → Settled (List (String × Snapshot))
  | [] => .fulfilled []
  | url :: urls =>
    match net (Request.ofUrl url) with
    | .rejected f => .rejected f
    | .fulfilled s =>
      if addAllAccepts s then
        match fetchAll net urls with
        | .fulfilled entries => .fulfilled ((url, s) :: entries)
        | .rejected f => .rejected f
      else .rejected (.typeError "Request failed")

/-- The method `cache.addAll(urls)` on the store of the given name: all URLs are fetched
first, and the entries are written only when every fetch has been fulfilled with an
accepted response. -/
def cacheAddAll (net : Network) (caches : CacheStorage) (name : String)
    (urls : List String) : Settled Unit × CacheStorage :=
  match fetchAll net urls with
  | .fulfilled entries =>
    (.fulfilled (),
     entries.foldl
      (fun acc entry => cachesModify (fun cache => entriesPut cache entry.1 entry.2) name acc)
      caches)
  | .rejected f => (.rejected f, caches)

/-- The snapshot the store of the given name holds for a URL, if any. -/
def storeEntry (caches : CacheStorage) (name url : String) : Option Snapshot :=
  match cachesLookup caches name with
  | some cache => (cache.find? fun entry => entry.1 = url).map fun entry => entry.2
  | none => none

/-! ## The install listener (service-worker.js, lines 14-22) -/

/-- The promise handed to `e.waitUntil` by the install listener,
`caches.open(cacheName).then(cache => cache.addAll(filesToCache))`, together with the
storage it leaves.  The first component is the completion signal. -/
def install (net : Network) (caches : CacheStorage) : Settled Unit × CacheStorage :=
  let opened := cachesOpen caches cacheName
  cacheAddAll net opened cacheName filesToCache

/-! ## The activate listener (lines 24-39) -/

/-- The platform calls of the activate listener, in the order they happen
(the `console.log` calls are left out). -/
inductive Event where
  /-- The call `caches.keys()`. -/
  | keysCalled
  /-- The call `e.waitUntil(promise)`. -/
  | waitUntilCalled
  /-- The call `self.clients.claim()`. -/
  | claimCalled
  /-- The promise of `caches.keys()` is fulfilled and its reaction starts. -/
  | keysResolved (keyList : List String)
  /-- The call `caches.delete(key)`. -/
  | deleteCalled (key : String)
  /-- The promise handed to `e.waitUntil` settles: the completion signal. -/
  | waitUntilSettled
  deriving DecidableEq, Repr

/-- Lines 29-34, the function mapped over `keyList`: a key that is neither current name
is deleted, for any other key nothing is done. -/
def removeOldCache (key : String) : List Event :=
  if key ≠ cacheName ∧ key ≠ dataCacheName then [Event.deleteCalled key] else []

/-- The listener body, which runs to completion as one job: line 27 calls
`caches.keys()` and registers the reaction, line 26 passes the promise to
`e.waitUntil`, line 38 calls `self.clients.claim()`. -/
def activateListenerJob : List Event :=
  [Event.keysCalled, Event.waitUntilCalled, Event.claimCalled]

/-- The reaction `keyList => Promise.all(keyList.map(...))` of lines 27-36.  A promise
reaction never runs inside the job that registered it, so it runs after the listener
body has returned. -/
def activateReactionJob (keyList : List String) : List Event :=
  Event.keysResolved keyList :: (keyList.map removeOldCache).flatten

/-- The end of cleanup: the promise of `Promise.all` is fulfilled once every deletion
the reaction asked for is done, and with it the promise handed to `e.waitUntil`. -/
def activateSettleJob : List Event := [Event.waitUntilSettled]

/-- The sequence of platform events of one activation: the listener body, then the
reaction, then the settling of the completion signal. -/
def activateTrace (caches : CacheStorage) : List Event :=
  activateListenerJob ++ activateReactionJob (cachesKeys caches) ++ activateSettleJob

/-- The effect of one platform call on the storage. -/
def applyEvent (caches : CacheStorage) : Event → CacheStorage
  | Event.deleteCalled key => cachesDelete caches key
  | _ => caches

/-- The storage once the promise handed to `e.waitUntil` by the activate listener has
settled, that is, once cleanup is complete. -/
def activate (caches : CacheStorage) : CacheStorage :=
  (activateTrace caches).foldl applyEvent caches

/-- The platform calls that belong to cleanup: the enumeration result arriving, and the
deletions. -/
def isCleanup : Event → Bool
  | Event.keysResolved _ => true
  | Event.deleteCalled _ => true
  | _ => false

/-- The spec's order, "after cleanup, the manager takes control": every cleanup event
of the trace comes before the call of `clients.claim`. -/
def ClaimAfterCleanup (events : List Event) : Prop :=
  ∀ (i j : Nat) (e : Event), events[i]? = some Event.claimCalled → events[j]? = some e →
    isCleanup e = true → j < i

/-- The opposite order: the call of `clients.claim` comes before every cleanup event of
the trace. -/
def ClaimBeforeCleanup (events : List Event) : Prop :=
  ∀ (i j : Nat) (e : Event), events[i]? = some Event.claimCalled → events[j]? = some e →
    isCleanup e = true → i < j

/-- The completion signal waits for cleanup: the promise handed to `waitUntil` settles
after every cleanup event of the trace (and after the call of `clients.claim`). -/
def SettlesAfterCleanup (events : List Event) : Prop :=
  ∀ (i j : Nat) (e : Event), events[i]? = some Event.waitUntilSettled → events[j]? = some e →
    (isCleanup e = true ∨ e = Event.claimCalled) → j < i

/-! ## The fetch listener (lines 41-66) -/

/-- What one run of the fetch listener does: what the promise handed to
`e.respondWith` settles to, the calls of `fetch` in order, and the storage it leaves. -/
structure FetchOutcome where
  response : Settled Response
  networkCalls : List Request
  caches : CacheStorage
  deriving DecidableEq, Repr

/-- Lines 46-62, the branch for API-origin requests. -/
def dataStorePath (net : Network) (caches : CacheStorage) (request : Request) :
    FetchOutcome :=
  let url := request.url
  match cachesMatch caches (Request.ofUrl url) with
  | some response => ⟨.fulfilled response, [], caches⟩
  | none =>
    let opened := cachesOpen caches dataCacheName
    match fetch net request with
    | .rejected f => ⟨.rejected f, [request], opened⟩
    | .fulfilled response =>
      match response.clone with
      | .rejected f => ⟨.rejected f, [request], opened⟩
      | .fulfilled copy =>
        match cachePut opened dataCacheName url copy with
        | .rejected f => ⟨.rejected f, [request], opened⟩
        | .fulfilled (stored, _) => ⟨.fulfilled response, [request], stored⟩

/-- Line 64, the branch for all other requests:
`caches.match(e.request).then(response => response || fetch(e.request))`. -/
def shellPath (net : Network) (caches : CacheStorage) (request : Request) :
    FetchOutcome :=
  match cachesMatch caches request with
  | some response => ⟨.fulfilled response, [], caches⟩
  | none => ⟨fetch net request, [request], caches⟩

/-- The fetch listener: line 45 routes on `url.indexOf(dataUrl) > -1`. -/
def fetchListener (net : Network) (caches : CacheStorage) (request : Request) :
    FetchOutcome :=
  let url := request.url
  if indexOf url dataUrl > -1 then dataStorePath net caches request
  else shellPath net caches request

/-! ## The rendered-html element (app.js, lines 7-25) -/

/-- The state of a `RenderedHtml` element: the field `_content` and the element's
`innerHTML`. -/
structure RenderedHtml where
  _content : String
  innerHTML : String
  deriving DecidableEq, Repr

/-- Lines 10-13, the constructor: `_content` is the empty string; the markup of the
element is whatever the element starts with. -/
def RenderedHtml.construct (innerHTML : String) : RenderedHtml := ⟨"", innerHTML⟩

/-- Lines 15-19, the setter of `content`. -/
def RenderedHtml.setContent (self : RenderedHtml) (value : String) : RenderedHtml :=
  if self._content = value then self
  else { _content := value, innerHTML := value }

/-- Lines 21-23, the getter of `content`. -/
def RenderedHtml.getContent (self : RenderedHtml) : String := self._content

/-- A sequence of assignments `el.content = value`, first to last. -/
def RenderedHtml.assignAll (self : RenderedHtml) (values : List String) : RenderedHtml :=
  values.foldl RenderedHtml.setContent self

/-! ## Concrete data used in the examples -/

/-- A translation request URL of the API origin. -/
def exampleApiUrl : String := "https://glosbe.com/gapi/translate?from=en&dest=de&phrase=word"

/-- A request URL that does not carry the marker. -/
def examplePageUrl : String := "https://words.example/elm.js"

/-- A snapshot as it could sit in a store other than the Data Store. -/
def shellCopy : Snapshot := ⟨200, [], "shell copy"⟩

/-- A snapshot as it could sit in the Data Store. -/
def dataCopy : Snapshot := ⟨200, [], "data copy"⟩

/-- A partial response, as a server sends for a range request. -/
def partialCopy : Snapshot := ⟨206, [], "partial copy"⟩

/-- A response for a missing resource. -/
def notFound : Snapshot := ⟨404, [], "not found"⟩

/-- A network on which every request fails. -/
def offline : Network := fun _ => .rejected (.network "offline")

/-- A network on which every request succeeds with the given snapshot. -/
def online (s : Snapshot) : Network := fun _ => .fulfilled s

/-! ## Routing (line 45) -/

/-- The scan finds a position exactly when the searched string occurs in the text. -/
theorem indexOfFrom_found_iff (searchString : List Char) (s : List Char) (k : Nat) :
    indexOfFrom searchString s k > -1 ↔ searchString <:+: s := by
  induction s generalizing k with
  | nil =>
    unfold indexOfFrom
    by_cases h : searchString = []
    · simp only [h, if_true, List.infix_rfl, iff_true]
      omega
    · simp [h]
  | cons c cs ih =>
    unfold indexOfFrom
    by_cases h : searchString.isPrefixOf (c :: cs) = true
    · rw [if_pos h]
      have hp : searchString <+: c :: cs := List.isPrefixOf_iff_prefix.mp h
      constructor
      · intro _
        exact hp.isInfix
      · intro _
        omega
    · rw [if_neg h, ih (k + 1), List.infix_cons_iff]
      have hp : ¬ searchString <+: c :: cs := fun hp => h (List.isPrefixOf_iff_prefix.mpr hp)
      simp [hp]

/-- The test of line 45 holds exactly when the marker is a literal substring. -/
theorem indexOf_found_iff (s marker : String) :
    indexOf s marker > -1 ↔ containsSubstring s marker := by
  unfold indexOf containsSubstring
  rw [indexOfFrom_found_iff]
  constructor
  · rintro ⟨before, after, h⟩
    exact ⟨before, after, h.symm⟩
  · rintro ⟨before, after, h⟩
    exact ⟨before, after, h.symm⟩

/-- The branch the fetch listener runs, by whether the URL contains the marker. -/
theorem fetchListener_branch (net : Network) (caches : CacheStorage)
    (request : Request) :
    (containsSubstring request.url dataUrl →
      fetchListener net caches request = dataStorePath net caches request) ∧
    (¬ containsSubstring request.url dataUrl →
      fetchListener net caches request = shellPath net caches request) := by
  constructor
  · intro h
    have h1 : indexOf request.url dataUrl > -1 := (indexOf_found_iff _ _).mpr h
    simp only [fetchListener, if_pos h1]
  · intro h
    have h1 : ¬ indexOf request.url dataUrl > -1 := fun h2 => h ((indexOf_found_iff _ _).mp h2)
    simp only [fetchListener, if_neg h1]

/-- C1: the test of line 45 holds exactly when the request URL contains the API origin
marker as a literal substring (anywhere in the URL); when it does the fetch listener
runs the Data Store branch, and otherwise it runs the shell-cache-or-network branch. -/
theorem fetchListener_routes_on_substring (net : Network) (caches : CacheStorage)
    (request : Request) :
    (indexOf request.url dataUrl > -1 ↔ containsSubstring request.url dataUrl) ∧
    (containsSubstring request.url dataUrl →
      fetchListener net caches request = dataStorePath net caches request) ∧
    (¬ containsSubstring request.url dataUrl →
      fetchListener net caches request = shellPath net caches request) := by
  exact ⟨indexOf_found_iff _ _, fetchListener_branch net caches request⟩

/-- An instance of C1: a URL of another host that carries the marker inside a query
parameter is routed to the Data Store branch. -/
theorem fetchListener_routes_on_substring_witness :
    containsSubstring "https://example.org/go?next=https://glosbe.com/gapi/translate" dataUrl ∧
    fetchListener (fun _ => .rejected (.network "offline")) []
        ⟨"GET", "https://example.org/go?next=https://glosbe.com/gapi/translate"⟩ =
      dataStorePath (fun _ => .rejected (.network "offline")) []
        ⟨"GET", "https://example.org/go?next=https://glosbe.com/gapi/translate"⟩ :=
  have h : containsSubstring
      "https://example.org/go?next=https://glosbe.com/gapi/translate" dataUrl :=
    ⟨"https://example.org/go?next=".data, [], by decide⟩
  ⟨h, (fetchListener_routes_on_substring (fun _ => .rejected (.network "offline")) []
        ⟨"GET", "https://example.org/go?next=https://glosbe.com/gapi/translate"⟩).2.1 h⟩

/-! ## Facts about the stores -/

/-- A URL string always gives a `GET` request, so matching it against one store is the
search for the first entry under that URL. -/
theorem cacheMatch_ofUrl (cache : Cache) (url : String) :
    cacheMatch cache (Request.ofUrl url) =
      (cache.find? fun entry => entry.1 = url).map fun entry => Response.fresh entry.2 := by
  simp [cacheMatch, Request.ofUrl]

/-- When the named store holds an entry for the URL, `caches.match(url)` finds a
response. -/
theorem cachesMatch_isSome_of_storeEntry (caches : CacheStorage) (name url : String)
    (s : Snapshot) (h : storeEntry caches name url = some s) :
    ∃ r, cachesMatch caches (Request.ofUrl url) = some r := by
  induction caches with
  | nil => simp [storeEntry, cachesLookup] at h
  | cons store rest ih =>
    obtain ⟨n, cache⟩ := store
    cases hm : cacheMatch cache (Request.ofUrl url) with
    | some r => exact ⟨r, by simp [cachesMatch, hm]⟩
    | none =>
      have hfind : (cache.find? fun entry => entry.1 = url) = none := by
        rw [cacheMatch_ofUrl] at hm
        simpa using hm
      by_cases hn : n = name
      · simp [storeEntry, cachesLookup, hn, hfind] at h
      · have h2 : storeEntry rest name url = some s := by
          simpa [storeEntry, cachesLookup, hn] using h
        obtain ⟨r, hr⟩ := ih h2
        exact ⟨r, by simp [cachesMatch, hm, hr]⟩

/-- When the named store holds an entry for the URL and no store of another name
matches the URL, `caches.match(url)` finds the entry of the named store. -/
theorem cachesMatch_eq_of_storeEntry (caches : CacheStorage) (name url : String)
    (s : Snapshot) (h : storeEntry caches name url = some s)
    (hothers : ∀ store ∈ caches, store.1 ≠ name →
      cacheMatch store.2 (Request.ofUrl url) = none) :
    cachesMatch caches (Request.ofUrl url) = some (Response.fresh s) := by
  induction caches with
  | nil => simp [storeEntry, cachesLookup] at h
  | cons store rest ih =>
    obtain ⟨n, cache⟩ := store
    by_cases hn : n = name
    · have h2 : (cache.find? fun entry => entry.1 = url).map (fun entry => entry.2) = some s := by
        simpa [storeEntry, cachesLookup, hn] using h
      cases hf : cache.find? fun entry => entry.1 = url with
      | none => simp [hf] at h2
      | some entry =>
        have hs : entry.2 = s := by simpa [hf] using h2
        simp [cachesMatch, cacheMatch_ofUrl, hf, hs]
    · have hm : cacheMatch cache (Request.ofUrl url) = none :=
        hothers (n, cache) (by simp) hn
      have h2 : storeEntry rest name url = some s := by
        simpa [storeEntry, cachesLookup, hn] using h
      have hr := ih h2 (fun store hmem hne => hothers store (List.mem_cons_of_mem _ hmem) hne)
      simp [cachesMatch, hm, hr]

/-- Opening a store makes its name one of the keys. -/
theorem mem_cachesKeys_cachesOpen (caches : CacheStorage) (name : String) :
    name ∈ cachesKeys (cachesOpen caches name) := by
  unfold cachesOpen
  by_cases h : name ∈ cachesKeys caches
  · rw [if_pos h]
    exact h
  · rw [if_neg h]
    simp [cachesKeys]

/-- Opening a store does not change what any store holds for any URL: a store that is
created is empty. -/
theorem storeEntry_cachesOpen (caches : CacheStorage) (name n url : String) :
    storeEntry (cachesOpen caches name) n url = storeEntry caches n url := by
  unfold cachesOpen
  by_cases h : name ∈ cachesKeys caches
  · simp [h]
  · simp only [h, if_false]
    induction caches with
    | nil =>
      by_cases hn : name = n <;> simp [storeEntry, cachesLookup, hn]
    | cons store rest ih =>
      obtain ⟨m, cache⟩ := store
      have hrest : name ∉ cachesKeys rest := by
        intro hmem
        exact h (by simp [cachesKeys] at hmem ⊢; exact Or.inr hmem)
      have ih2 := ih hrest
      by_cases hm : m = n
      · simp [storeEntry, cachesLookup, hm]
      · simp only [storeEntry, cachesLookup, List.cons_append, List.find?_cons, hm,
          decide_False] at ih2 ⊢
        exact ih2

/-- Opening a store leaves every store of another name as it is. -/
theorem cachesLookup_cachesOpen_ne (caches : CacheStorage) (name n : String)
    (hne : n ≠ name) :
    cachesLookup (cachesOpen caches name) n = cachesLookup caches n := by
  unfold cachesOpen
  by_cases h : name ∈ cachesKeys caches
  · simp [h]
  · simp only [h, if_false, cachesLookup]
    rw [List.find?_append]
    have h0 : ([(name, ([] : Cache))].find? fun store => store.1 = n) = none := by
      simp [Ne.symm hne]
    rw [h0]
    simp

/-- Rewriting the store of one name leaves every store of another name as it is. -/
theorem cachesLookup_cachesModify_ne (f : Cache → Cache) (caches : CacheStorage)
    (name n : String) (hne : n ≠ name) :
    cachesLookup (cachesModify f name caches) n = cachesLookup caches n := by
  induction caches with
  | nil => rfl
  | cons store rest ih =>
    obtain ⟨m, cache⟩ := store
    by_cases hm : m = name
    · subst hm
      simp [cachesModify, cachesLookup, Ne.symm hne]
    · by_cases hmn : m = n
      · subst hmn
        simp [cachesModify, cachesLookup, hm]
      · simp only [cachesLookup, cachesModify, hm, if_false, List.find?_cons, hmn,
          decide_False] at ih ⊢
        exact ih

/-- Rewriting the store of an existing name rewrites what the handle gives. -/
theorem cachesLookup_cachesModify_self (f : Cache → Cache) (caches : CacheStorage)
    (name : String) (hmem : name ∈ cachesKeys caches) :
    ∃ cache, cachesLookup caches name = some cache ∧
      cachesLookup (cachesModify f name caches) name = some (f cache) := by
  induction caches with
  | nil => simp [cachesKeys] at hmem
  | cons store rest ih =>
    obtain ⟨m, cache⟩ := store
    by_cases hm : m = name
    · subst hm
      exact ⟨cache, by simp [cachesLookup], by simp [cachesModify, cachesLookup]⟩
    · have hrest : name ∈ cachesKeys rest := by
        simp only [cachesKeys, List.map_cons, List.mem_cons] at hmem
        rcases hmem with h | h
        · exact absurd h.symm hm
        · exact h
      obtain ⟨c, hc1, hc2⟩ := ih hrest
      refine ⟨c, ?_, ?_⟩
      · simp only [cachesLookup, List.find?_cons, hm, decide_False] at hc1 ⊢
        exact hc1
      · simp only [cachesLookup, cachesModify, hm, if_false, List.find?_cons,
          decide_False] at hc2 ⊢
        exact hc2

/-- After a write, the first entry under the written URL is the written one. -/
theorem find_entriesPut_self (cache : Cache) (url : String) (s : Snapshot) :
    ((entriesPut cache url s).find? fun entry => entry.1 = url) = some (url, s) := by
  unfold entriesPut
  rw [List.find?_append]
  have h0 : ((cache.filter fun entry => entry.1 ≠ url).find? fun entry => entry.1 = url)
      = none := by
    rw [List.find?_eq_none]
    intro entry hmem
    have := (List.mem_filter.mp hmem).2
    simpa using this
  rw [h0]
  simp

/-- A write does not change the first entry under another URL. -/
theorem find_entriesPut_ne (cache : Cache) (url other : String) (s : Snapshot)
    (hne : other ≠ url) :
    ((entriesPut cache url s).find? fun entry => entry.1 = other) =
      cache.find? fun entry => entry.1 = other := by
  have hfilter : ((cache.filter fun entry => entry.1 ≠ url).find? fun entry => entry.1 = other)
      = cache.find? fun entry => entry.1 = other := by
    induction cache with
    | nil => rfl
    | cons entry rest ih =>
      by_cases h1 : entry.1 = url
      · have h2 : ¬ entry.1 = other := fun h => hne (h ▸ h1)
        rw [List.filter_cons_of_neg (by simpa using h1),
          List.find?_cons_of_neg _ (by simpa using h2)]
        exact ih
      · rw [List.filter_cons_of_pos (by simpa using h1)]
        by_cases h2 : entry.1 = other
        · rw [List.find?_cons_of_pos _ (by simpa using h2),
            List.find?_cons_of_pos _ (by simpa using h2)]
        · rw [List.find?_cons_of_neg _ (by simpa using h2),
            List.find?_cons_of_neg _ (by simpa using h2)]
          exact ih
  unfold entriesPut
  rw [List.find?_append, hfilter]
  have h0 : ([(url, s)].find? fun entry => entry.1 = other) = none := by
    simp [Ne.symm hne]
  rw [h0]
  simp

/-! ## The fetch listener: API-origin requests -/

/-- C2, as stated, fails: with the URL stored both in the Shell Store and in the Data
Store, the listener answers with the Shell Store's response, not with the one stored in
the Data Store. -/
theorem data_store_hit_shadowed_counterexample :
    containsSubstring exampleApiUrl dataUrl ∧
    storeEntry
      [(cacheName, [(exampleApiUrl, shellCopy)]), (dataCacheName, [(exampleApiUrl, dataCopy)])]
      dataCacheName exampleApiUrl = some dataCopy ∧
    (fetchListener offline
      [(cacheName, [(exampleApiUrl, shellCopy)]), (dataCacheName, [(exampleApiUrl, dataCopy)])]
      ⟨"GET", exampleApiUrl⟩).response = .fulfilled (Response.fresh shellCopy) ∧
    (fetchListener offline
      [(cacheName, [(exampleApiUrl, shellCopy)]), (dataCacheName, [(exampleApiUrl, dataCopy)])]
      ⟨"GET", exampleApiUrl⟩).response ≠ .fulfilled (Response.fresh dataCopy) := by
  refine ⟨⟨[], "?from=en&dest=de&phrase=word".data, by decide⟩, by decide, by decide, by decide⟩

/-- C2, amended: for an API-origin request whose URL is present in the Data Store the
listener makes no network call, leaves the storage as it is, and responds with the
first response stored for the URL in the stores taken in creation order; that is the
Data Store's response when no store of another name holds an entry for the URL. -/
theorem fetchListener_first_match (net : Network) (caches : CacheStorage) (request : Request)
    (s : Snapshot) (hapi : containsSubstring request.url dataUrl)
    (hin : storeEntry caches dataCacheName request.url = some s) :
    ∃ r, cachesMatch caches (Request.ofUrl request.url) = some r ∧
      fetchListener net caches request = ⟨.fulfilled r, [], caches⟩ ∧
      ((∀ store ∈ caches, store.1 ≠ dataCacheName →
          cacheMatch store.2 (Request.ofUrl request.url) = none) →
        r = Response.fresh s) := by
  obtain ⟨r, hr⟩ := cachesMatch_isSome_of_storeEntry caches dataCacheName request.url s hin
  refine ⟨r, hr, ?_, ?_⟩
  · rw [(fetchListener_branch net caches request).1 hapi]
    simp [dataStorePath, hr]
  · intro hothers
    have h2 := cachesMatch_eq_of_storeEntry caches dataCacheName request.url s hin hothers
    rw [hr] at h2
    exact Option.some.inj h2

/-- An instance of the amended C2: the Data Store alone holds the URL. -/
theorem fetchListener_first_match_witness :
    containsSubstring exampleApiUrl dataUrl ∧
    storeEntry [(dataCacheName, [(exampleApiUrl, dataCopy)])] dataCacheName exampleApiUrl
      = some dataCopy ∧
    ∃ r, cachesMatch [(dataCacheName, [(exampleApiUrl, dataCopy)])]
        (Request.ofUrl exampleApiUrl) = some r ∧
      fetchListener offline [(dataCacheName, [(exampleApiUrl, dataCopy)])]
          ⟨"GET", exampleApiUrl⟩ =
        ⟨.fulfilled r, [], [(dataCacheName, [(exampleApiUrl, dataCopy)])]⟩ ∧
      ((∀ store ∈ [(dataCacheName, [(exampleApiUrl, dataCopy)])], store.1 ≠ dataCacheName →
          cacheMatch store.2 (Request.ofUrl exampleApiUrl) = none) →
        r = Response.fresh dataCopy) :=
  have hapi : containsSubstring exampleApiUrl dataUrl :=
    ⟨[], "?from=en&dest=de&phrase=word".data, by decide⟩
  ⟨hapi, by decide,
    fetchListener_first_match offline [(dataCacheName, [(exampleApiUrl, dataCopy)])]
      ⟨"GET", exampleApiUrl⟩ dataCopy hapi (by decide)⟩

/-- C3, as stated, fails in two ways.  With the URL absent from the Data Store but
stored in the Shell Store, and a network that would succeed, the listener makes no
network call, answers with the Shell Store's response, and the Data Store gains no
entry.  And with no store at all and a network that succeeds with a partial response
(status 206), `cache.put` refuses the clone: the listener's response is rejected and
the Data Store holds no entry for the URL. -/
theorem write_through_skipped_counterexample :
    (containsSubstring exampleApiUrl dataUrl ∧
      storeEntry [(cacheName, [(exampleApiUrl, shellCopy)])] dataCacheName exampleApiUrl = none ∧
      online dataCopy ⟨"GET", exampleApiUrl⟩ = .fulfilled dataCopy ∧
      (fetchListener (online dataCopy) [(cacheName, [(exampleApiUrl, shellCopy)])]
        ⟨"GET", exampleApiUrl⟩).networkCalls = [] ∧
      (fetchListener (online dataCopy) [(cacheName, [(exampleApiUrl, shellCopy)])]
        ⟨"GET", exampleApiUrl⟩).response = .fulfilled (Response.fresh shellCopy) ∧
      storeEntry
        (fetchListener (online dataCopy) [(cacheName, [(exampleApiUrl, shellCopy)])]
          ⟨"GET", exampleApiUrl⟩).caches
        dataCacheName exampleApiUrl = none) ∧
    (storeEntry [] dataCacheName exampleApiUrl = none ∧
      online partialCopy ⟨"GET", exampleApiUrl⟩ = .fulfilled partialCopy ∧
      (fetchListener (online partialCopy) [] ⟨"GET", exampleApiUrl⟩).networkCalls
        = [⟨"GET", exampleApiUrl⟩] ∧
      (fetchListener (online partialCopy) [] ⟨"GET", exampleApiUrl⟩).response
        = .rejected (.typeError "Partial response (status code 206) is unsupported") ∧
      storeEntry (fetchListener (online partialCopy) [] ⟨"GET", exampleApiUrl⟩).caches
        dataCacheName exampleApiUrl = none) := by
  refine ⟨⟨⟨[], "?from=en&dest=de&phrase=word".data, by decide⟩, by decide, rfl, by decide,
    by decide, by decide⟩, by decide, rfl, by decide, by decide, by decide⟩

/-- C3, amended: for an API-origin request whose URL no store holds (so that
`caches.match(url)` finds nothing), when the network request succeeds with a response
that `cache.put` accepts (status other than 206, no `Vary` header with the value `*`),
the listener makes exactly one network call, afterwards the Data Store holds for that
URL the content of the network response (written from a clone), the stores of every
other name are as before, and the listener responds with the original network response,
whose body has not been read. -/
theorem fetchListener_miss_writes_through (net : Network) (caches : CacheStorage)
    (request : Request) (s : Snapshot)
    (hapi : containsSubstring request.url dataUrl)
    (hmiss : cachesMatch caches (Request.ofUrl request.url) = none)
    (hnet : net request = .fulfilled s)
    (hstatus : s.status ≠ 206) (hvary : "*" ∉ s.vary) :
    (fetchListener net caches request).networkCalls = [request] ∧
    (fetchListener net caches request).response = .fulfilled ⟨s, false⟩ ∧
    storeEntry (fetchListener net caches request).caches dataCacheName request.url = some s ∧
    (∀ name, name ≠ dataCacheName →
      cachesLookup (fetchListener net caches request).caches name = cachesLookup caches name) := by
  rw [(fetchListener_branch net caches request).1 hapi]
  have hout : dataStorePath net caches request =
      ⟨.fulfilled ⟨s, false⟩, [request],
        cachesModify (fun cache => entriesPut cache request.url s) dataCacheName
          (cachesOpen caches dataCacheName)⟩ := by
    simp [dataStorePath, hmiss, fetch, hnet, Response.fresh, Response.clone, cachePut,
      hstatus, hvary]
  rw [hout]
  refine ⟨rfl, rfl, ?_, ?_⟩
  · obtain ⟨cache, _, hc⟩ := cachesLookup_cachesModify_self
      (fun cache => entriesPut cache request.url s) (cachesOpen caches dataCacheName)
      dataCacheName (mem_cachesKeys_cachesOpen caches dataCacheName)
    simp only [storeEntry]
    rw [hc]
    simp only [find_entriesPut_self, Option.map_some']
  · intro name hne
    simp only
    rw [cachesLookup_cachesModify_ne _ _ _ _ hne, cachesLookup_cachesOpen_ne _ _ _ hne]

/-- An instance of the amended C3: an empty storage and a network that answers with a
complete response. -/
theorem fetchListener_miss_writes_through_witness :
    containsSubstring exampleApiUrl dataUrl ∧
    cachesMatch [] (Request.ofUrl exampleApiUrl) = none ∧
    online dataCopy ⟨"GET", exampleApiUrl⟩ = .fulfilled dataCopy ∧
    dataCopy.status ≠ 206 ∧ "*" ∉ dataCopy.vary ∧
    (fetchListener (online dataCopy) [] ⟨"GET", exampleApiUrl⟩).networkCalls
      = [⟨"GET", exampleApiUrl⟩] ∧
    (fetchListener (online dataCopy) [] ⟨"GET", exampleApiUrl⟩).response
      = .fulfilled ⟨dataCopy, false⟩ ∧
    storeEntry (fetchListener (online dataCopy) [] ⟨"GET", exampleApiUrl⟩).caches
      dataCacheName exampleApiUrl = some dataCopy ∧
    (∀ name, name ≠ dataCacheName →
      cachesLookup (fetchListener (online dataCopy) [] ⟨"GET", exampleApiUrl⟩).caches name
        = cachesLookup [] name) :=
  have hapi : containsSubstring exampleApiUrl dataUrl :=
    ⟨[], "?from=en&dest=de&phrase=word".data, by decide⟩
  ⟨hapi, rfl, rfl, by decide, by decide,
    fetchListener_miss_writes_through (online dataCopy) [] ⟨"GET", exampleApiUrl⟩ dataCopy
      hapi rfl rfl (by decide) (by decide)⟩

/-- C8: for an API-origin request whose URL is not cached (`caches.match(url)` finds
nothing), when the network request fails the promise handed to `respondWith` is
rejected with that very failure, exactly one network call was made, and no store holds
any entry it did not hold before. -/
theorem fetchListener_miss_network_failure (net : Network) (caches : CacheStorage)
    (request : Request) (f : Failure)
    (hapi : containsSubstring request.url dataUrl)
    (hmiss : cachesMatch caches (Request.ofUrl request.url) = none)
    (hnet : net request = .rejected f) :
    (fetchListener net caches request).response = .rejected f ∧
    (fetchListener net caches request).networkCalls = [request] ∧
    (∀ name url,
      storeEntry (fetchListener net caches request).caches name url
        = storeEntry caches name url) := by
  rw [(fetchListener_branch net caches request).1 hapi]
  have hout : dataStorePath net caches request =
      ⟨.rejected f, [request], cachesOpen caches dataCacheName⟩ := by
    simp [dataStorePath, hmiss, fetch, hnet]
  rw [hout]
  refine ⟨rfl, rfl, ?_⟩
  intro name url
  exact storeEntry_cachesOpen caches dataCacheName name url

/-- An instance of C8: an empty storage and a network that is down. -/
theorem fetchListener_miss_network_failure_witness :
    containsSubstring exampleApiUrl dataUrl ∧
    cachesMatch [] (Request.ofUrl exampleApiUrl) = none ∧
    offline ⟨"GET", exampleApiUrl⟩ = .rejected (.network "offline") ∧
    (fetchListener offline [] ⟨"GET", exampleApiUrl⟩).response
      = .rejected (.network "offline") ∧
    (fetchListener offline [] ⟨"GET", exampleApiUrl⟩).networkCalls
      = [⟨"GET", exampleApiUrl⟩] ∧
    (∀ name url,
      storeEntry (fetchListener offline [] ⟨"GET", exampleApiUrl⟩).caches name url
        = storeEntry [] name url) :=
  have hapi : containsSubstring exampleApiUrl dataUrl :=
    ⟨[], "?from=en&dest=de&phrase=word".data, by decide⟩
  ⟨hapi, rfl, rfl,
    fetchListener_miss_network_failure offline [] ⟨"GET", exampleApiUrl⟩ (.network "offline")
      hapi rfl rfl⟩

/-! ## The fetch listener: all other requests -/

/-- C5: for a request whose URL does not contain the marker and that matches no entry in
any store, the listener makes exactly one network call, responds with what that call
settles to, and leaves the storage exactly as it was (no entry is added and no store is
created). -/
theorem fetchListener_shell_miss (net : Network) (caches : CacheStorage)
    (request : Request)
    (hother : ¬ containsSubstring request.url dataUrl)
    (hmiss : cachesMatch caches request = none) :
    (fetchListener net caches request).networkCalls = [request] ∧
    (fetchListener net caches request).response = fetch net request ∧
    (fetchListener net caches request).caches = caches := by
  rw [(fetchListener_branch net caches request).2 hother]
  simp [shellPath, hmiss]

/-- The witness of C5: a request for a page asset that no store holds. -/
theorem fetchListener_shell_miss_witness :
    ¬ containsSubstring examplePageUrl dataUrl ∧
    cachesMatch [(cacheName, [(exampleApiUrl, shellCopy)])] ⟨"GET", examplePageUrl⟩ = none ∧
    (fetchListener (online dataCopy) [(cacheName, [(exampleApiUrl, shellCopy)])]
      ⟨"GET", examplePageUrl⟩).networkCalls = [⟨"GET", examplePageUrl⟩] ∧
    (fetchListener (online dataCopy) [(cacheName, [(exampleApiUrl, shellCopy)])]
      ⟨"GET", examplePageUrl⟩).response = fetch (online dataCopy) ⟨"GET", examplePageUrl⟩ ∧
    (fetchListener (online dataCopy) [(cacheName, [(exampleApiUrl, shellCopy)])]
      ⟨"GET", examplePageUrl⟩).caches = [(cacheName, [(exampleApiUrl, shellCopy)])] :=
  have hother : ¬ containsSubstring examplePageUrl dataUrl :=
    fun h => absurd ((indexOf_found_iff examplePageUrl dataUrl).mpr h) (by decide)
  ⟨hother, by decide,
    fetchListener_shell_miss (online dataCopy) [(cacheName, [(exampleApiUrl, shellCopy)])]
      ⟨"GET", examplePageUrl⟩ hother (by decide)⟩

/-! ## The activate listener -/

/-- The deletions of the reaction, applied in order, remove exactly the enumerated
stores whose name is neither current name. -/
theorem foldl_applyEvent_removeOldCache (keyList : List String) (caches : CacheStorage) :
    (keyList.map removeOldCache).flatten.foldl applyEvent caches =
      caches.filter fun store =>
        !decide (store.1 ∈ keyList ∧ store.1 ≠ cacheName ∧ store.1 ≠ dataCacheName) := by
  induction keyList generalizing caches with
  | nil => simp
  | cons key keys ih =>
    rw [List.map_cons, List.flatten_cons, List.foldl_append]
    by_cases hstale : key ≠ cacheName ∧ key ≠ dataCacheName
    · have h1 : removeOldCache key = [Event.deleteCalled key] := by
        simp only [removeOldCache, if_pos hstale]
      rw [h1]
      simp only [List.foldl_cons, List.foldl_nil, applyEvent, cachesDelete]
      rw [ih, List.filter_filter]
      apply List.filter_congr
      intro store _
      by_cases hk : store.1 = key
      · simp [hk, hstale.1, hstale.2]
      · simp [hk]
    · have h1 : removeOldCache key = [] := by
        simp only [removeOldCache, if_neg hstale]
      rw [h1, List.foldl_nil, ih]
      apply List.filter_congr
      intro store _
      by_cases hk : store.1 = key
      · have h2 : ¬ (store.1 ≠ cacheName ∧ store.1 ≠ dataCacheName) := by
          rw [hk]
          exact hstale
        have h3 : ¬ (store.1 ∈ keys ∧ store.1 ≠ cacheName ∧ store.1 ≠ dataCacheName) :=
          fun h => h2 h.2
        have h4 : ¬ (store.1 ∈ key :: keys ∧ store.1 ≠ cacheName ∧ store.1 ≠ dataCacheName) :=
          fun h => h2 h.2
        simp only [h3, h4]
      · simp [hk]

/-- The storage after cleanup is the storage restricted to the two current names. -/
theorem activate_eq_filter (caches : CacheStorage) :
    activate caches =
      caches.filter fun store => decide (store.1 = cacheName ∨ store.1 = dataCacheName) := by
  have h0 : activate caches =
      ((cachesKeys caches).map removeOldCache).flatten.foldl applyEvent caches := by
    simp [activate, activateTrace, activateListenerJob, activateReactionJob,
      activateSettleJob, applyEvent]
  rw [h0, foldl_applyEvent_removeOldCache]
  apply List.filter_congr
  intro store hmem
  have hkey : store.1 ∈ cachesKeys caches := List.mem_map_of_mem _ hmem
  by_cases h1 : store.1 = cacheName
  · simp [h1]
  · by_cases h2 : store.1 = dataCacheName
    · simp [h2]
    · simp [h1, h2, hkey]

/-- C4: after the cleanup of the activate listener the storage consists of exactly the
stores whose name is the Shell Store name or the Data Store name, each with the content
it had, in the order they had; every other store is gone.  For instance, of a stale
shell store, the Data Store and the current Shell Store, only the stale one is
deleted. -/
theorem activate_retains_exactly_current_stores (caches : CacheStorage) :
    activate caches =
      caches.filter (fun store => decide (store.1 = cacheName ∨ store.1 = dataCacheName)) ∧
    (∀ store, store ∈ activate caches ↔
      store ∈ caches ∧ (store.1 = "Elm-Cards" ∨ store.1 = "Elm-Cards-Data-v1")) ∧
    activate
        [("Elm-Cards-v0", [(exampleApiUrl, shellCopy)]),
         ("Elm-Cards-Data-v1", [(exampleApiUrl, dataCopy)]),
         ("Elm-Cards", [(examplePageUrl, shellCopy)])] =
      [("Elm-Cards-Data-v1", [(exampleApiUrl, dataCopy)]),
       ("Elm-Cards", [(examplePageUrl, shellCopy)])] := by
  refine ⟨activate_eq_filter caches, ?_, by decide⟩
  intro store
  rw [activate_eq_filter, List.mem_filter]
  simp [cacheName, dataCacheName]

/-- The reaction job makes no call of `clients.claim`. -/
theorem claimCalled_not_mem_activateReactionJob (keyList : List String) :
    Event.claimCalled ∉ activateReactionJob keyList := by
  intro hmem
  simp only [activateReactionJob, List.mem_cons, List.mem_flatten, List.mem_map] at hmem
  rcases hmem with h | ⟨l, ⟨key, _, hl⟩, hin⟩
  · cases h
  · subst hl
    unfold removeOldCache at hin
    split at hin
    · simp at hin
    · simp at hin

/-- Neither the listener body nor the reaction settles the completion signal. -/
theorem waitUntilSettled_not_mem_jobs (keyList : List String) :
    Event.waitUntilSettled ∉ activateListenerJob ++ activateReactionJob keyList := by
  intro hmem
  simp only [activateListenerJob, activateReactionJob, List.cons_append, List.nil_append,
    List.mem_cons, List.mem_flatten, List.mem_map] at hmem
  rcases hmem with h | h | h | h | ⟨l, ⟨key, _, hl⟩, hin⟩
  · cases h
  · cases h
  · cases h
  · cases h
  · subst hl
    unfold removeOldCache at hin
    split at hin
    · simp at hin
    · simp at hin

/-- In a list that ends with the only occurrence of `x`, every other element sits at a
smaller position than `x`. -/
theorem lt_of_getElem?_append_singleton {α : Type} (pre : List α) (x e : α) (i j : Nat)
    (hx : x ∉ pre) (hi : (pre ++ [x])[i]? = some x) (hj : (pre ++ [x])[j]? = some e)
    (he : e ≠ x) : j < i := by
  have hi2 : pre.length ≤ i := by
    by_contra hlt
    rw [List.getElem?_append_left (Nat.lt_of_not_le hlt)] at hi
    exact hx (List.getElem?_mem hi)
  have hj2 : j < pre.length := by
    by_contra hge
    rw [List.getElem?_append_right (Nat.le_of_not_lt hge)] at hj
    cases hk : j - pre.length with
    | zero =>
      rw [hk] at hj
      simp only [List.getElem?_cons_zero, Option.some.injEq] at hj
      exact he hj.symm
    | succ n =>
      rw [hk] at hj
      simp at hj
  omega

/-- C9, as stated, fails: with one stale store, `clients.claim` is called (position 2
of the trace) before the enumeration has resolved (position 3) and before the stale
store is deleted (position 4). -/
theorem claim_precedes_cleanup_counterexample :
    activateTrace [("Elm-Cards-v0", [])] =
      [Event.keysCalled, Event.waitUntilCalled, Event.claimCalled,
       Event.keysResolved ["Elm-Cards-v0"], Event.deleteCalled "Elm-Cards-v0",
       Event.waitUntilSettled] ∧
    ¬ ClaimAfterCleanup (activateTrace [("Elm-Cards-v0", [])]) := by
  refine ⟨by decide, ?_⟩
  intro h
  have h2 := h 2 4 (Event.deleteCalled "Elm-Cards-v0") (by decide) (by decide) rfl
  omega

/-- C9, amended: in every activation the listener calls `clients.claim` in its own
body, as the very next platform call after handing the cleanup promise to `waitUntil`
(positions 1 and 2 of the trace) and without waiting for that promise; every step of
cleanup comes after the claim call: the enumeration resolves at position 3 and each
stale store is deleted later still; and the promise handed to `waitUntil`, the
completion signal, settles last, after the enumeration, after every deletion and after
the claim call. -/
theorem activate_claims_before_cleanup (caches : CacheStorage) :
    (activateTrace caches)[1]? = some Event.waitUntilCalled ∧
    (activateTrace caches)[2]? = some Event.claimCalled ∧
    ClaimBeforeCleanup (activateTrace caches) ∧
    (activateTrace caches)[3]? = some (Event.keysResolved (cachesKeys caches)) ∧
    (∀ key, key ∈ cachesKeys caches → key ≠ cacheName → key ≠ dataCacheName →
      ∃ j, 3 < j ∧ (activateTrace caches)[j]? = some (Event.deleteCalled key)) ∧
    (activateTrace caches).getLast? = some Event.waitUntilSettled ∧
    SettlesAfterCleanup (activateTrace caches) := by
  have htrace : activateTrace caches =
      Event.keysCalled :: Event.waitUntilCalled :: Event.claimCalled ::
        (activateReactionJob (cachesKeys caches) ++ [Event.waitUntilSettled]) := rfl
  refine ⟨?_, ?_, ?_, ?_, ?_, ?_, ?_⟩
  · rw [htrace]
    rfl
  · rw [htrace]
    rfl
  · intro i j e hi hj hc
    rw [htrace] at hi hj
    match i, hi with
    | 0, hi => simp at hi
    | 1, hi => simp at hi
    | 2, _ =>
      match j, hj with
      | 0, hj =>
        simp at hj
        subst hj
        simp [isCleanup] at hc
      | 1, hj =>
        simp at hj
        subst hj
        simp [isCleanup] at hc
      | 2, hj =>
        simp at hj
        subst hj
        simp [isCleanup] at hc
      | j + 3, _ => omega
    | i + 3, hi =>
      simp only [List.getElem?_cons_succ] at hi
      have hmem := List.getElem?_mem hi
      rw [List.mem_append] at hmem
      rcases hmem with h | h
      · exact absurd h (claimCalled_not_mem_activateReactionJob _)
      · simp at h
  · rw [htrace]
    simp [activateReactionJob]
  · intro key hkey h1 h2
    have hmem : Event.deleteCalled key ∈ ((cachesKeys caches).map removeOldCache).flatten := by
      rw [List.mem_flatten]
      refine ⟨removeOldCache key, List.mem_map_of_mem _ hkey, ?_⟩
      simp [removeOldCache, h1, h2]
    obtain ⟨n, hn⟩ := List.getElem?_of_mem hmem
    obtain ⟨hlt, _⟩ := List.getElem?_eq_some.mp hn
    refine ⟨n + 4, by omega, ?_⟩
    rw [htrace]
    simp only [activateReactionJob, List.cons_append, List.getElem?_cons_succ]
    rw [List.getElem?_append_left hlt]
    exact hn
  · simp only [activateTrace, activateSettleJob]
    exact List.getLast?_concat _
  · intro i j e hi hj hc
    have he : e ≠ Event.waitUntilSettled := by
      rcases hc with h | h
      · intro heq
        rw [heq] at h
        simp [isCleanup] at h
      · rw [h]
        intro heq
        cases heq
    exact lt_of_getElem?_append_singleton _ Event.waitUntilSettled e i j
      (waitUntilSettled_not_mem_jobs (cachesKeys caches)) hi hj he

/-- The witness of C9: an activation with one stale store next to the two current ones;
the stale store is deleted after the call of `clients.claim`. -/
theorem activate_claims_before_cleanup_witness :
    "Elm-Cards-v0" ∈ cachesKeys [("Elm-Cards-v0", []), (cacheName, []), (dataCacheName, [])] ∧
    "Elm-Cards-v0" ≠ cacheName ∧ "Elm-Cards-v0" ≠ dataCacheName ∧
    ∃ j, 3 < j ∧
      (activateTrace [("Elm-Cards-v0", []), (cacheName, []), (dataCacheName, [])])[j]?
        = some (Event.deleteCalled "Elm-Cards-v0") :=
  ⟨by decide, by decide, by decide,
    (activate_claims_before_cleanup
        [("Elm-Cards-v0", []), (cacheName, []), (dataCacheName, [])]).2.2.2.2.1
      "Elm-Cards-v0" (by decide) (by decide) (by decide)⟩

/-! ## The install listener -/

/-- Rewriting a store does not change the keys. -/
theorem cachesKeys_cachesModify (f : Cache → Cache) (name : String) (caches : CacheStorage) :
    cachesKeys (cachesModify f name caches) = cachesKeys caches := by
  induction caches with
  | nil => rfl
  | cons store rest ih =>
    obtain ⟨m, cache⟩ := store
    by_cases hm : m = name
    · simp [cachesModify, cachesKeys, hm]
    · simp only [cachesKeys, List.map_cons] at ih ⊢
      simp only [cachesModify, hm, if_false, List.map_cons, ih]

/-- Writing an entry into an existing store makes it the store's entry for that URL. -/
theorem storeEntry_put_self (caches : CacheStorage) (name url : String) (s : Snapshot)
    (hmem : name ∈ cachesKeys caches) :
    storeEntry (cachesModify (fun cache => entriesPut cache url s) name caches) name url
      = some s := by
  obtain ⟨cache, _, hc⟩ := cachesLookup_cachesModify_self
    (fun cache => entriesPut cache url s) caches name hmem
  simp only [storeEntry]
  rw [hc]
  simp only [find_entriesPut_self, Option.map_some']

/-- Writing an entry does not change what any store holds for another URL. -/
theorem storeEntry_put_ne (caches : CacheStorage) (name n url other : String) (s : Snapshot)
    (hne : other ≠ url) :
    storeEntry (cachesModify (fun cache => entriesPut cache url s) name caches) n other
      = storeEntry caches n other := by
  induction caches with
  | nil => rfl
  | cons store rest ih =>
    obtain ⟨m, cache⟩ := store
    by_cases hm : m = name
    · subst hm
      by_cases hmn : m = n
      · subst hmn
        simp [cachesModify, storeEntry, cachesLookup, find_entriesPut_ne _ _ _ _ hne]
      · simp [cachesModify, storeEntry, cachesLookup, hmn]
    · by_cases hmn : m = n
      · subst hmn
        simp [cachesModify, storeEntry, cachesLookup, hm]
      · simp only [storeEntry, cachesLookup, cachesModify, hm, if_false, List.find?_cons, hmn,
          decide_False] at ih ⊢
        exact ih

/-- The two manifest URLs are different. -/
theorem filesToCache_distinct :
    ("https://cdnjs.cloudflare.com/ajax/libs/bulma/0.7.1/css/bulma.min.css" : String) ≠
      "https://use.fontawesome.com/releases/v5.1.0/js/all.js" := by
  decide

/-- What install does: either both manifest fetches are fulfilled with accepted
responses and both are written, in manifest order, into the opened Shell Store, or the
completion signal is rejected and the storage is what opening the Shell Store left. -/
theorem install_cases (net : Network) (caches : CacheStorage) :
    (∃ s1 s2,
      net (Request.ofUrl "https://cdnjs.cloudflare.com/ajax/libs/bulma/0.7.1/css/bulma.min.css")
        = .fulfilled s1 ∧ addAllAccepts s1 = true ∧
      net (Request.ofUrl "https://use.fontawesome.com/releases/v5.1.0/js/all.js")
        = .fulfilled s2 ∧ addAllAccepts s2 = true ∧
      install net caches =
        (.fulfilled (),
          cachesModify (fun cache => entriesPut cache
              "https://use.fontawesome.com/releases/v5.1.0/js/all.js" s2) cacheName
            (cachesModify (fun cache => entriesPut cache
              "https://cdnjs.cloudflare.com/ajax/libs/bulma/0.7.1/css/bulma.min.css" s1) cacheName
              (cachesOpen caches cacheName)))) ∨
    ((∃ g, (install net caches).1 = .rejected g) ∧
      (install net caches).2 = cachesOpen caches cacheName) := by
  unfold install cacheAddAll
  simp only [filesToCache, fetchAll]
  cases h1 : net (Request.ofUrl
      "https://cdnjs.cloudflare.com/ajax/libs/bulma/0.7.1/css/bulma.min.css") with
  | rejected f =>
    right
    exact ⟨⟨f, rfl⟩, rfl⟩
  | fulfilled s1 =>
    by_cases a1 : addAllAccepts s1 = true
    · cases h2 : net (Request.ofUrl
          "https://use.fontawesome.com/releases/v5.1.0/js/all.js") with
      | rejected f =>
        right
        simp [a1]
      | fulfilled s2 =>
        by_cases a2 : addAllAccepts s2 = true
        · left
          refine ⟨s1, s2, rfl, a1, rfl, a2, ?_⟩
          simp only [a1, a2, if_true, List.foldl_cons, List.foldl_nil]
        · right
          simp [a1, a2]
    · right
      simp [a1]

/-- C7: the completion signal of install is fulfilled only if every manifest URL was
fetched and its response is stored in the Shell Store; and if the fetch of any manifest
URL fails, the completion signal is rejected and the storage is what opening the Shell
Store left, so no store holds any entry it did not hold before. -/
theorem install_all_or_nothing (net : Network) (caches : CacheStorage) :
    ((install net caches).1 = .fulfilled () →
      ∀ url ∈ filesToCache, ∃ s, net (Request.ofUrl url) = .fulfilled s ∧
        storeEntry (install net caches).2 cacheName url = some s) ∧
    (∀ url ∈ filesToCache, ∀ f, net (Request.ofUrl url) = .rejected f →
      (∃ g, (install net caches).1 = .rejected g) ∧
      (install net caches).2 = cachesOpen caches cacheName ∧
      ∀ name u, storeEntry (install net caches).2 name u = storeEntry caches name u) := by
  have hopen := mem_cachesKeys_cachesOpen caches cacheName
  constructor
  · intro hok url hmem
    rcases install_cases net caches with ⟨s1, s2, h1, _, h2, _, hrun⟩ | ⟨⟨g, hg⟩, _⟩
    · rw [hrun]
      simp only [filesToCache, List.mem_cons, List.mem_singleton, List.not_mem_nil,
        or_false] at hmem
      rcases hmem with hu | hu
      · subst hu
        refine ⟨s1, h1, ?_⟩
        rw [storeEntry_put_ne _ _ _ _ _ _ filesToCache_distinct]
        exact storeEntry_put_self _ _ _ _ hopen
      · subst hu
        refine ⟨s2, h2, ?_⟩
        apply storeEntry_put_self
        rw [cachesKeys_cachesModify]
        exact hopen
    · rw [hg] at hok
      cases hok
  · intro url hmem f hfail
    rcases install_cases net caches with ⟨s1, s2, h1, _, h2, _, _⟩ | ⟨hrej, hstore⟩
    · simp only [filesToCache, List.mem_cons, List.mem_singleton, List.not_mem_nil,
        or_false] at hmem
      rcases hmem with hu | hu
      · subst hu
        rw [h1] at hfail
        cases hfail
      · subst hu
        rw [h2] at hfail
        cases hfail
    · refine ⟨hrej, hstore, ?_⟩
      intro name u
      rw [hstore]
      exact storeEntry_cachesOpen caches cacheName name u

/-- The witness of C7: the first manifest URL is served and the second is not. -/
theorem install_all_or_nothing_witness :
    (∃ g, (install
        (fun request =>
          if request.url = "https://use.fontawesome.com/releases/v5.1.0/js/all.js"
          then .rejected (.network "offline") else .fulfilled shellCopy)
        [(dataCacheName, [(exampleApiUrl, dataCopy)])]).1 = .rejected g) ∧
    (install
        (fun request =>
          if request.url = "https://use.fontawesome.com/releases/v5.1.0/js/all.js"
          then .rejected (.network "offline") else .fulfilled shellCopy)
        [(dataCacheName, [(exampleApiUrl, dataCopy)])]).2 =
      cachesOpen [(dataCacheName, [(exampleApiUrl, dataCopy)])] cacheName ∧
    ∀ name u, storeEntry (install
        (fun request =>
          if request.url = "https://use.fontawesome.com/releases/v5.1.0/js/all.js"
          then .rejected (.network "offline") else .fulfilled shellCopy)
        [(dataCacheName, [(exampleApiUrl, dataCopy)])]).2 name u =
      storeEntry [(dataCacheName, [(exampleApiUrl, dataCopy)])] name u :=
  (install_all_or_nothing
      (fun request =>
        if request.url = "https://use.fontawesome.com/releases/v5.1.0/js/all.js"
        then .rejected (.network "offline") else .fulfilled shellCopy)
      [(dataCacheName, [(exampleApiUrl, dataCopy)])]).2
    "https://use.fontawesome.com/releases/v5.1.0/js/all.js" (by decide)
    (.network "offline") (by decide)

/-- C6, as stated, fails: on a network where every manifest fetch succeeds, but with a
404 response, `cache.addAll` rejects and writes nothing, so after one install and after
two the Shell Store is empty: it holds no entry for either manifest URL. -/
theorem install_not_found_counterexample :
    (∀ url ∈ filesToCache, ∃ s, online notFound (Request.ofUrl url) = .fulfilled s) ∧
    install (online notFound) [] = (.rejected (.typeError "Request failed"), [(cacheName, [])]) ∧
    install (online notFound) (install (online notFound) []).2 =
      (.rejected (.typeError "Request failed"), [(cacheName, [])]) ∧
    (∀ url ∈ filesToCache,
      storeEntry (install (online notFound) (install (online notFound) []).2).2 cacheName url
        = none) := by
  refine ⟨fun _ _ => ⟨notFound, rfl⟩, by decide, by decide, by decide⟩

/-- C6, amended: starting from no stores, when every manifest fetch succeeds in both
runs with a response that `cache.addAll` accepts (an ok status, 200 to 299, other than
206, and no `Vary` header with the value `*`), a second install leaves exactly what a
single install leaves: the completion signal is fulfilled and the storage is the Shell
Store alone, holding one entry per manifest URL, in manifest order, and nothing else. -/
theorem install_twice_eq_once (first second : Network)
    (hfirst : ∀ url ∈ filesToCache,
      ∃ s, first (Request.ofUrl url) = .fulfilled s ∧ addAllAccepts s = true)
    (hsecond : ∀ url ∈ filesToCache,
      ∃ s, second (Request.ofUrl url) = .fulfilled s ∧ addAllAccepts s = true) :
    install second (install first []).2 = install second [] ∧
    (install second (install first []).2).1 = .fulfilled () ∧
    ∃ shell, (install second (install first []).2).2 = [(cacheName, shell)] ∧
      shell.map (fun entry => entry.1) = filesToCache := by
  obtain ⟨a1, ha1, hacc1⟩ := hfirst
    "https://cdnjs.cloudflare.com/ajax/libs/bulma/0.7.1/css/bulma.min.css" (by decide)
  obtain ⟨a2, ha2, hacc2⟩ := hfirst
    "https://use.fontawesome.com/releases/v5.1.0/js/all.js" (by decide)
  obtain ⟨b1, hb1, hbcc1⟩ := hsecond
    "https://cdnjs.cloudflare.com/ajax/libs/bulma/0.7.1/css/bulma.min.css" (by decide)
  obtain ⟨b2, hb2, hbcc2⟩ := hsecond
    "https://use.fontawesome.com/releases/v5.1.0/js/all.js" (by decide)
  have hne := filesToCache_distinct
  have hfirstRun : install first [] =
      (.fulfilled (),
        [(cacheName,
          [("https://cdnjs.cloudflare.com/ajax/libs/bulma/0.7.1/css/bulma.min.css", a1),
           ("https://use.fontawesome.com/releases/v5.1.0/js/all.js", a2)])]) := by
    simp [install, cacheAddAll, filesToCache, fetchAll, ha1, ha2, hacc1, hacc2, cachesOpen,
      cachesKeys, cachesModify, entriesPut, hne]
  have hsecondRun : install second [] =
      (.fulfilled (),
        [(cacheName,
          [("https://cdnjs.cloudflare.com/ajax/libs/bulma/0.7.1/css/bulma.min.css", b1),
           ("https://use.fontawesome.com/releases/v5.1.0/js/all.js", b2)])]) := by
    simp [install, cacheAddAll, filesToCache, fetchAll, hb1, hb2, hbcc1, hbcc2, cachesOpen,
      cachesKeys, cachesModify, entriesPut, hne]
  have hagain : install second (install first []).2 =
      (.fulfilled (),
        [(cacheName,
          [("https://cdnjs.cloudflare.com/ajax/libs/bulma/0.7.1/css/bulma.min.css", b1),
           ("https://use.fontawesome.com/releases/v5.1.0/js/all.js", b2)])]) := by
    rw [hfirstRun]
    simp [install, cacheAddAll, filesToCache, fetchAll, hb1, hb2, hbcc1, hbcc2, cachesOpen,
      cachesKeys, cachesModify, entriesPut, hne, Ne.symm hne]
  rw [hagain, hsecondRun]
  exact ⟨rfl, rfl, _, rfl, rfl⟩

/-- The witness of the amended C6: a network that serves every request with a complete
200 response. -/
theorem install_twice_eq_once_witness :
    (∀ url ∈ filesToCache,
      ∃ s, online shellCopy (Request.ofUrl url) = .fulfilled s ∧ addAllAccepts s = true) ∧
    install (online shellCopy) (install (online shellCopy) []).2
      = install (online shellCopy) [] ∧
    (install (online shellCopy) (install (online shellCopy) []).2).1 = .fulfilled () ∧
    ∃ shell, (install (online shellCopy) (install (online shellCopy) []).2).2
        = [(cacheName, shell)] ∧
      shell.map (fun entry => entry.1) = filesToCache :=
  ⟨fun _ _ => ⟨shellCopy, rfl, by decide⟩,
    install_twice_eq_once (online shellCopy) (online shellCopy)
      (fun _ _ => ⟨shellCopy, rfl, by decide⟩) (fun _ _ => ⟨shellCopy, rfl, by decide⟩)⟩

/-! ## The rendered-html element -/

/-- Right after an assignment, reading `content` gives the assigned value, whether the
guard fired or not. -/
theorem getContent_setContent (el : RenderedHtml) (value : String) :
    (el.setContent value).getContent = value := by
  unfold RenderedHtml.setContent RenderedHtml.getContent
  by_cases h : el._content = value
  · rw [if_pos h]
    exact h
  · rw [if_neg h]

/-- After a sequence of assignments, reading `content` gives the last assigned value, or
the content the element had when nothing was assigned. -/
theorem getContent_assignAll (el : RenderedHtml) (values : List String) :
    (el.assignAll values).getContent = values.getLast?.getD el._content := by
  induction values using List.reverseRecOn with
  | nil => rfl
  | append_singleton init last _ =>
    have h : el.assignAll (init ++ [last]) = (el.assignAll init).setContent last := by
      simp [RenderedHtml.assignAll, List.foldl_append]
    rw [h, getContent_setContent, List.getLast?_concat]
    rfl

/-- C10: assigning to `content` a value equal to the current content changes nothing
(neither the stored content nor the rendered HTML); assigning a different value sets
both the stored content and the rendered HTML to that value; and after any sequence of
assignments to a new element, reading `content` gives the most recently assigned value,
the empty string when nothing was assigned. -/
theorem renderedHtml_content (el : RenderedHtml) (value initial : String)
    (values : List String) :
    (el._content = value → el.setContent value = el) ∧
    (el._content ≠ value →
      (el.setContent value)._content = value ∧ (el.setContent value).innerHTML = value) ∧
    ((RenderedHtml.construct initial).assignAll values).getContent
      = values.getLast?.getD "" := by
  refine ⟨?_, ?_, getContent_assignAll _ _⟩
  · intro h
    simp only [RenderedHtml.setContent, if_pos h]
  · intro h
    simp only [RenderedHtml.setContent, if_neg h, and_self]

/-- The witness of C10: a first assignment to a new element renders the value, and a
sequence that repeats its last value reads back that value. -/
theorem renderedHtml_content_witness :
    (RenderedHtml.construct "<p>old</p>")._content ≠ "<b>word</b>" ∧
    ((RenderedHtml.construct "<p>old</p>").setContent "<b>word</b>")._content = "<b>word</b>" ∧
    ((RenderedHtml.construct "<p>old</p>").setContent "<b>word</b>").innerHTML = "<b>word</b>" :=
  ⟨by decide,
    (renderedHtml_content (RenderedHtml.construct "<p>old</p>") "<b>word</b>" "" []).2.1
      (by decide)⟩

end Words
